import Mathlib

/-
Verification of the lasy profile-composition and grid-energy core.

Shallow embedding of:
  - lasy/profiles/profile.py   (Profile, SummedProfile, ScaledProfile)
  - lasy/utils/laser_utils.py  (compute_laser_energy, normalize_energy,
                                normalize_peak_field_amplitude,
                                normalize_peak_intensity)

Modelling conventions:
  - Python floats / numpy float64 are modelled as real numbers (ℝ),
    complex128 as ℂ.  numpy scalar and array division by zero does not
    raise in Python (it warns and yields inf/nan); accordingly division
    is the total field division of ℝ/ℂ and never produces an error value.
  - A numpy ndarray of envelope values is modelled as a nested list
    (3 axes: x,y,t for "xyt"; azimuthal-mode, r, t for "rt").
  - Fallible Python code (assert statements, out-of-range indexing,
    numpy shape errors, use of an unbound local) is modelled with
    Except Err; each Python exception class gets an Err constructor.
  - Python's dynamic isinstance checks are modelled with the wrapper
    type PyVal (a value that is either a Profile object or anything else).
-/

namespace Lasy

/-- Python exception classes that the modelled code can raise.
AssertionError is what a failed `assert` raises (the spec's
InvalidArgument class); IndexError models out-of-range list indexing;
ValueError models numpy reductions over empty arrays and shape
mismatches; UnboundLocalError models `return energy` with `energy`
never assigned.  ZeroDivisionError is listed because the spec names a
DivisionByZero class, but no modelled numpy operation raises it. -/
inductive Err where
  | assertionError (msg : String)
  | indexError
  | valueError
  | unboundLocalError
  | zeroDivisionError
  deriving DecidableEq

noncomputable section

/-- scipy.constants.c (m/s). -/
def c : ℝ := 299792458

/-- scipy.constants.epsilon_0 (F/m). -/
def epsilon_0 : ℝ := 8.8541878128e-12

/-- A lasy profile object.  `prim` covers both the base Profile class
(whose evaluate returns zeros) and any concrete subclass overriding
`evaluate` with an arbitrary formula `f`; `summed` and `scaled` are the
composite classes.  Each constructor stores the attributes the Python
object carries after `__init__` (`lambda0` and `pol`). -/
inductive Profile where
  | prim (lambda0 : ℝ) (pol : ℂ × ℂ) (f : ℝ → ℝ → ℝ → ℂ)
  | summed (lambda0 : ℝ) (pol : ℂ × ℂ) (profiles : List Profile)
  | scaled (lambda0 : ℝ) (pol : ℂ × ℂ) (profile : Profile) (factor : ℝ)

/-- Attribute `self.lambda0`. -/
def Profile.lambda0 : Profile → ℝ
  | .prim l _ _ => l
  | .summed l _ _ => l
  | .scaled l _ _ _ => l

/-- Attribute `self.pol` (a pair, i.e. the stored length-2 array). -/
def Profile.pol : Profile → ℂ × ℂ
  | .prim _ q _ => q
  | .summed _ q _ => q
  | .scaled _ q _ _ => q

/-- Attribute `self.omega0 = 2*np.pi*c/self.lambda0`, recomputed by each
constructor from the stored wavelength. -/
def Profile.omega0 (p : Profile) : ℝ := 2 * Real.pi * c / p.lambda0

mutual

/-- Method dispatch for `evaluate(x, y, t)`, pointwise (the Python code
maps elementwise over equal-shape coordinate arrays):
base/concrete profiles apply their own formula, SummedProfile.evaluate
returns `sum([p.evaluate(x, y, t) for p in self.profiles])` (Python
`sum` starts from 0 and folds `+` left), ScaledProfile.evaluate returns
`self.profile.evaluate(x, y, t) * self.factor`. -/
def Profile.evaluate : Profile → ℝ → ℝ → ℝ → ℂ
  | .prim _ _ f, x, y, t => f x y t
  | .summed _ _ ps, x, y, t => evalSum ps x y t
  | .scaled _ _ p k, x, y, t => Profile.evaluate p x y t * (k : ℂ)

/-- Python `sum([...])` over the evaluated operands. -/
def evalSum : List Profile → ℝ → ℝ → ℝ → ℂ
  | [], _, _, _ => 0
  | p :: ps, x, y, t => Profile.evaluate p x y t + evalSum ps x y t

end

/-- Embeds `Profile.__init__(self, wavelength, pol)`:
`assert len(pol) == 2`, then
`norm_pol = np.sqrt(np.abs(pol[0])**2 + np.abs(pol[1])**2)` and
`self.pol = np.array([pol[0]/norm_pol, pol[1]/norm_pol])`.
There is no check that `norm_pol` is nonzero; numpy division by a zero
scalar warns and yields non-finite values but raises nothing, so the
zero-norm case still returns an object.  The base class `evaluate`
returns zeros. -/
def Profile.init (wavelength : ℝ) (pol : List ℂ) : Except Err Profile :=
  if pol.length = 2 then
    let p0 := pol.getD 0 0
    let p1 := pol.getD 1 0
    let norm_pol := Real.sqrt (Complex.abs p0 ^ 2 + Complex.abs p1 ^ 2)
    .ok (.prim wavelength (p0 / (norm_pol : ℂ), p1 / (norm_pol : ℂ))
      (fun _ _ _ => 0))
  else
    .error (.assertionError "len(pol) == 2")

/-- A Python value passed as a `*profiles` argument: either an actual
Profile object or any non-Profile value (isinstance is dynamic). -/
inductive PyVal where
  | prof (p : Profile)
  | other

/-- Embeds `isinstance(p, Profile)`. -/
def PyVal.isProfile : PyVal → Bool
  | .prof _ => true
  | .other => false

/-- Extract the Profile from a PyVal when there is one. -/
def PyVal.asProfile : PyVal → Option Profile
  | .prof p => some p
  | .other => none

/-- Embeds `np.isclose` on reals with numpy defaults rtol=1e-5, atol=1e-8:
`|a - b| <= atol + rtol*|b|`. -/
def iscloseR (a b : ℝ) : Prop := |a - b| ≤ 1e-8 + 1e-5 * |b|

/-- Embeds `np.isclose` on complex values: `|a - b| <= atol + rtol*|b|` with
the complex modulus. -/
def iscloseC (a b : ℂ) : Prop :=
  Complex.abs (a - b) ≤ 1e-8 + 1e-5 * Complex.abs b

/-- Embeds `np.allclose(self.lambda0, self.lambda0[0])`: every stored
wavelength is close to the first one. -/
def wavelengthsClose (ps : List Profile) (l0 : ℝ) : Prop :=
  ∀ p ∈ ps, iscloseR p.lambda0 l0

/-- Embeds `np.allclose(self.pol, self.pol[0])`: every stored polarization
pair is elementwise close to the first one (broadcast over the pair). -/
def polsClose (ps : List Profile) (q : ℂ × ℂ) : Prop :=
  ∀ p ∈ ps, iscloseC p.pol.1 q.1 ∧ iscloseC p.pol.2 q.2

open Classical in
/-- Embeds `SummedProfile.__init__(self, *profiles)`:
1. `assert all([isinstance(p, Profile) for p in profiles])`;
2. builds `self.lambda0`/`self.pol` lists; with zero operands the next
   line's `self.lambda0[0]` raises IndexError;
3. `assert np.allclose(self.lambda0, self.lambda0[0])`;
4. adopts `profiles[0].lambda0`;
5. `assert np.allclose(self.pol, self.pol[0])`;
6. adopts `profiles[0].pol`. -/
def SummedProfile.init (args : List PyVal) : Except Err Profile :=
  if args.all PyVal.isProfile then
    match args.filterMap PyVal.asProfile with
    | [] => .error .indexError
    | p0 :: ps =>
      if wavelengthsClose (p0 :: ps) p0.lambda0 then
        if polsClose (p0 :: ps) p0.pol then
          .ok (.summed p0.lambda0 p0.pol (p0 :: ps))
        else
          .error (.assertionError "Added profiles must have the same polarization.")
      else
        .error (.assertionError "Added profiles must have the same wavelength.")
  else
    .error (.assertionError "All summands must be Profile objects.")

/-- Embeds `ScaledProfile.__init__(self, profile, factor)` with a real factor
and an actual Profile (the two asserts hold by typing here): copies
`lambda0`, `omega0`, `pol` from the wrapped profile and stores the
factor. -/
def ScaledProfile.init (p : Profile) (factor : ℝ) : Except Err Profile :=
  .ok (.scaled p.lambda0 p.pol p factor)

/-- Embeds `Profile.__add__(self, other) = SummedProfile(self, other)`. -/
def Profile.add (a b : Profile) : Except Err Profile :=
  SummedProfile.init [.prof a, .prof b]

/-- Embeds `Profile.__mul__(self, factor) = ScaledProfile(self, factor)`. -/
def Profile.mul (p : Profile) (factor : ℝ) : Except Err Profile :=
  ScaledProfile.init p factor

/-- Embeds `Profile.__rmul__(self, factor) = ScaledProfile(self, factor)`. -/
def Profile.rmul (factor : ℝ) (p : Profile) : Except Err Profile :=
  ScaledProfile.init p factor

/-- A Grid as used by laser_utils: `box.dx` (per-axis spacing),
`box.axes[0]` (first coordinate axis, the radial axis for "rt"),
and the 3-axis complex envelope `grid.field`. -/
structure Grid where
  dx : List ℝ
  axes0 : List ℝ
  field : List (List (List ℂ))

/-- Σ |v|² over one innermost (t) row: `abs(envelope)**2` reduced over
the last axis. -/
def row2 (row : List ℂ) : ℝ := (row.map (fun v => Complex.abs v ^ 2)).sum

/-- Σ |v|² over a 2-axis slice. -/
def slice2 (s : List (List ℂ)) : ℝ := (s.map row2).sum

/-- Σ |v|² over the whole 3-axis field: `(abs(envelope)**2).sum()`. -/
def field2 (f : List (List (List ℂ))) : ℝ := (f.map slice2).sum

/-- The per-radius factor `dV * epsilon_0 * 0.5` of the "rt" branch,
with `dV = np.pi * ((r + 0.5*dr)**2 - (r - 0.5*dr)**2) * dz`. -/
def rtCellWeight (dr dz r : ℝ) : ℝ :=
  Real.pi * ((r + 0.5 * dr) ^ 2 - (r - 0.5 * dr) ^ 2) * dz * epsilon_0 * 0.5

/-- Embeds `(dV[np.newaxis, :, np.newaxis] * epsilon_0 * 0.5 * abs(envelope)**2).sum()`:
the radial volume weights broadcast over the mode and time axes, then a
total reduce-sum.  Rows of each mode slice are paired with the radial
axis positionally. -/
def rtEnergy (dr dz : ℝ) (rs : List ℝ) (f : List (List (List ℂ))) : ℝ :=
  (f.map (fun s =>
    ((rs.zip s).map (fun pr => rtCellWeight dr dz pr.1 * row2 pr.2)).sum)).sum

/-- Embeds `compute_laser_energy(dim, grid)`.
`dz = box.dx[-1] * c` (IndexError on an empty spacing list); then
- `dim == "xyt"`: `dV = box.dx[0]*box.dx[1]*dz`,
  `energy = ((dV * epsilon_0 * 0.5) * abs(envelope)**2).sum()`;
- `dim == "rt"`: radial ring volumes broadcast against the field
  (a numpy shape error if a mode slice's row count differs from the
  radial axis length);
- any other dim: `return energy` reads a never-assigned local,
  raising UnboundLocalError. -/
def compute_laser_energy (dim : String) (grid : Grid) : Except Err ℝ :=
  match grid.dx.getLast? with
  | none => .error .indexError
  | some dlast =>
    let dz := dlast * c
    if dim = "xyt" then
      match grid.dx with
      | d0 :: d1 :: _ =>
        .ok ((d0 * d1 * dz * epsilon_0 * 0.5) * field2 grid.field)
      | _ => .error .indexError
    else if dim = "rt" then
      match grid.dx with
      | dr :: _ =>
        if grid.field.all (fun s => s.length == grid.axes0.length) then
          .ok (rtEnergy dr dz grid.axes0 grid.field)
        else .error .valueError
      | _ => .error .indexError
    else
      .error .unboundLocalError

/-- In-place `grid.field *= norm_factor` with a real scalar. -/
def scaleField (k : ℝ) (f : List (List (List ℂ))) : List (List (List ℂ)) :=
  f.map (fun s => s.map (fun row => row.map (fun v => v * (k : ℂ))))

/-- Embeds `normalize_energy(dim, energy, grid)`: returns immediately when
`energy is None`; otherwise computes the current energy and multiplies
the field in place by `(energy/current_energy)**0.5`.  numpy float
division by zero and the fractional power of a negative value warn and
produce non-finite values but raise nothing; in the real-number model
the factor is `Real.sqrt (energy / current)`. -/
def normalize_energy (dim : String) (energy : Option ℝ) (grid : Grid) :
    Except Err Grid :=
  match energy with
  | none => .ok grid
  | some e =>
    match compute_laser_energy dim grid with
    | .error err => .error err
    | .ok current_energy =>
      let norm_factor := Real.sqrt (e / current_energy)
      .ok { grid with field := scaleField norm_factor grid.field }

/-- Flatten the 3-axis field to the list of its entries. -/
def flat3 (f : List (List (List ℂ))) : List ℂ := (f.map List.flatten).flatten

/-- Embeds `.max()` of a 1-argument numpy reduction: ValueError on an empty
array, otherwise the maximum entry. -/
def npMax : List ℝ → Except Err ℝ
  | [] => .error .valueError
  | x :: xs => .ok (xs.foldl max x)

/-- Embeds `normalize_peak_field_amplitude(amplitude, grid)`: returns when
`amplitude is None`; otherwise
`grid.field = grid.field / np.abs(grid.field).max() * amplitude`. -/
def normalize_peak_field_amplitude (amplitude : Option ℝ) (grid : Grid) :
    Except Err Grid :=
  match amplitude with
  | none => .ok grid
  | some a =>
    match npMax ((flat3 grid.field).map (fun v => Complex.abs v)) with
    | .error e => .error e
    | .ok m =>
      .ok { grid with field :=
        grid.field.map (fun s => s.map (fun row =>
          row.map (fun v => v / (m : ℂ) * (a : ℂ)))) }

/-- Embeds `normalize_peak_intensity(peak_intensity, grid)`: returns when the
target is None; otherwise computes
`intensity = np.abs(epsilon_0 * grid.field**2 / 2 * c)` pointwise,
takes its max, and multiplies the field in place by
`np.sqrt(peak_intensity / input_peak_intensity)`. -/
def normalize_peak_intensity (peak_intensity : Option ℝ) (grid : Grid) :
    Except Err Grid :=
  match peak_intensity with
  | none => .ok grid
  | some pI =>
    match npMax ((flat3 grid.field).map (fun v =>
        Complex.abs ((epsilon_0 : ℂ) * v ^ 2 / 2 * (c : ℂ)))) with
    | .error e => .error e
    | .ok m =>
      .ok { grid with field := scaleField (Real.sqrt (pI / m)) grid.field }

/-- A uniform (n,n,n) field of constant value v. -/
def uniformField (n : ℕ) (v : ℂ) : List (List (List ℂ)) :=
  List.replicate n (List.replicate n (List.replicate n v))

/-- A sample concrete profile (wavelength 1, x-polarized, envelope 1). -/
def pA : Profile := .prim 1 (1, 0) (fun _ _ _ => 1)

/-- A sample concrete profile (wavelength 1, x-polarized, envelope 2). -/
def pB : Profile := .prim 1 (1, 0) (fun _ _ _ => 2)

/-- A sample concrete profile (wavelength 1, x-polarized, envelope 3). -/
def pC : Profile := .prim 1 (1, 0) (fun _ _ _ => 3)

/-- A 1×1×1 grid holding a single zero envelope value, spacing 1 on
each axis. -/
def zeroGrid : Grid := ⟨[1, 1, 1], [], [[[0]]]⟩

/-- The SummedProfile object built from pA alone. -/
def pAonly : Profile := .summed pA.lambda0 pA.pol [pA]

/-- The SummedProfile pA + pB. -/
def pAB : Profile := .summed pA.lambda0 pA.pol [pA, pB]

/-- The SummedProfile pB + pA. -/
def pBA : Profile := .summed pB.lambda0 pB.pol [pB, pA]

/-- The SummedProfile pB + pC. -/
def pBC : Profile := .summed pB.lambda0 pB.pol [pB, pC]

/-- The SummedProfile (pA + pB) + pC. -/
def pABC : Profile := .summed pAB.lambda0 pAB.pol [pAB, pC]

/-- The SummedProfile pA + (pB + pC). -/
def pA_BC : Profile := .summed pA.lambda0 pA.pol [pA, pBC]

end

/- ------------------------------------------------------------------ -/
/- Helper lemmas                                                      -/
/- ------------------------------------------------------------------ -/

theorem iscloseR_self (a : ℝ) : iscloseR a a := by
  unfold iscloseR
  rw [sub_self, abs_zero]
  positivity

theorem iscloseC_self (a : ℂ) : iscloseC a a := by
  unfold iscloseC
  rw [sub_self, map_zero]
  positivity

theorem sum_map_const_mul {α : Type} (k : ℝ) (g : α → ℝ) (l : List α) :
    (l.map (fun a => k * g a)).sum = k * (l.map g).sum := by
  induction l with
  | nil => simp
  | cons a l ih => simp [ih, mul_add]

theorem sum_map_mul_of_ptwise {α : Type} (k : ℝ) (g h : α → ℝ) (l : List α)
    (hgh : ∀ a ∈ l, g a = k * h a) : (l.map g).sum = k * (l.map h).sum := by
  induction l with
  | nil => simp
  | cons a l ih =>
    simp only [List.map_cons, List.sum_cons, hgh a (List.mem_cons_self a l),
      ih (fun b hb => hgh b (List.mem_cons_of_mem a hb))]
    ring

theorem npMax_of_ne_nil {l : List ℝ} (h : l ≠ []) : ∃ m, npMax l = .ok m := by
  cases l with
  | nil => exact absurd rfl h
  | cons x xs => exact ⟨_, rfl⟩

theorem map_prof_all (ps : List Profile) :
    (ps.map PyVal.prof).all PyVal.isProfile = true := by
  induction ps with
  | nil => rfl
  | cons p ps ih => simp [PyVal.isProfile, ih]

theorem filterMap_map_prof (ps : List Profile) :
    (ps.map PyVal.prof).filterMap PyVal.asProfile = ps := by
  induction ps with
  | nil => rfl
  | cons p ps ih => simp [PyVal.asProfile, ih]

theorem all_profile_eq (args : List PyVal) (h : args.all PyVal.isProfile = true) :
    args = (args.filterMap PyVal.asProfile).map PyVal.prof := by
  induction args with
  | nil => rfl
  | cons a as ih =>
    cases a with
    | prof p =>
      simp only [List.all_cons, Bool.and_eq_true] at h
      simp [PyVal.asProfile, ← ih h.2]
    | other => simp [PyVal.isProfile] at h

theorem summed_init_ok (p0 : Profile) (ps : List Profile)
    (hw : wavelengthsClose (p0 :: ps) p0.lambda0)
    (hp : polsClose (p0 :: ps) p0.pol) :
    SummedProfile.init ((p0 :: ps).map PyVal.prof) =
      .ok (.summed p0.lambda0 p0.pol (p0 :: ps)) := by
  unfold SummedProfile.init
  rw [if_pos (map_prof_all (p0 :: ps)), filterMap_map_prof]
  exact (if_pos hw).trans (if_pos hp)

theorem summed_init_ok_inv {args : List PyVal} {q : Profile}
    (h : SummedProfile.init args = .ok q) :
    ∃ p0 ps, args = (p0 :: ps).map PyVal.prof ∧
      q = .summed p0.lambda0 p0.pol (p0 :: ps) := by
  unfold SummedProfile.init at h
  split at h
  · rename_i hall
    split at h
    · exact absurd h (by simp)
    · rename_i p0 ps heq
      split at h
      · split at h
        · exact ⟨p0, ps, by rw [all_profile_eq args hall, heq],
            (Except.ok.inj h).symm⟩
        · exact absurd h (by simp)
      · exact absurd h (by simp)
  · exact absurd h (by simp)

theorem wavelengthsClose_single (p : Profile) : wavelengthsClose [p] p.lambda0 := by
  intro q hq
  simp only [List.mem_singleton] at hq
  subst hq
  exact iscloseR_self _

theorem polsClose_single (p : Profile) : polsClose [p] p.pol := by
  intro q hq
  simp only [List.mem_singleton] at hq
  subst hq
  exact ⟨iscloseC_self _, iscloseC_self _⟩

theorem add_ok_same (a b : Profile) (hl : b.lambda0 = a.lambda0)
    (hq : b.pol = a.pol) :
    Profile.add a b = .ok (.summed a.lambda0 a.pol [a, b]) := by
  have hw : wavelengthsClose [a, b] a.lambda0 := by
    intro p hp
    rcases List.mem_pair.mp hp with rfl | rfl
    · exact iscloseR_self _
    · rw [hl]
      exact iscloseR_self _
  have hp : polsClose [a, b] a.pol := by
    intro p hp
    rcases List.mem_pair.mp hp with rfl | rfl
    · exact ⟨iscloseC_self _, iscloseC_self _⟩
    · rw [hq]
      exact ⟨iscloseC_self _, iscloseC_self _⟩
  exact summed_init_ok a [b] hw hp

theorem evalSum_eq_sum (ps : List Profile) (x y t : ℝ) :
    evalSum ps x y t = (ps.map (fun p => p.evaluate x y t)).sum := by
  induction ps with
  | nil => rfl
  | cons p ps ih => simp [evalSum, ih]

theorem evaluate_summed (l : ℝ) (q : ℂ × ℂ) (ps : List Profile) (x y t : ℝ) :
    (Profile.summed l q ps).evaluate x y t =
      (ps.map (fun p => p.evaluate x y t)).sum :=
  evalSum_eq_sum ps x y t

theorem pair_map_prof_inv {a0 A B : Profile} {as : List Profile}
    (h : ([PyVal.prof A, PyVal.prof B] : List PyVal) = (a0 :: as).map PyVal.prof) :
    a0 = A ∧ as = [B] := by
  cases as with
  | nil => exact absurd h (by simp)
  | cons a1 as' =>
    cases as' with
    | cons a2 as'' => exact absurd h (by simp)
    | nil =>
      simp only [List.map_cons, List.map_nil, List.cons.injEq, and_true,
        PyVal.prof.injEq] at h
      exact ⟨h.1.symm, by rw [h.2]⟩

/- ------------------------------------------------------------------ -/
/- C9: null target is a no-op                                         -/
/- ------------------------------------------------------------------ -/

/-- C9: calling NormalizeEnergy, NormalizePeakField, or
NormalizePeakIntensity with a null/unset target is a no-op: the grid
comes back with its field unchanged, and no error is raised. -/
theorem C9_none_is_noop (dim : String) (g : Grid) :
    normalize_energy dim none g = .ok g ∧
    normalize_peak_field_amplitude none g = .ok g ∧
    normalize_peak_intensity none g = .ok g :=
  ⟨rfl, rfl, rfl⟩

/- ------------------------------------------------------------------ -/
/- C10: dim dispatch is exhaustive over "xyt" and "rt" only           -/
/- ------------------------------------------------------------------ -/

/-- C10: for any dim other than "xyt" and "rt", compute_laser_energy
fails with an error (UnboundLocalError from the never-assigned result
variable, or IndexError first if the spacing list is empty) instead of
returning a number. -/
theorem C10_other_dim_errors (dim : String) (g : Grid)
    (hx : dim ≠ "xyt") (hr : dim ≠ "rt") :
    ∃ e, compute_laser_energy dim g = .error e := by
  unfold compute_laser_energy
  cases g.dx.getLast? with
  | none => exact ⟨.indexError, rfl⟩
  | some d => exact ⟨.unboundLocalError, by simp [hx, hr]⟩

/-- Witness for C10 at dim = "abc". -/
theorem C10_witness : ∃ e, compute_laser_energy "abc" zeroGrid = .error e :=
  C10_other_dim_errors "abc" zeroGrid (by decide) (by decide)

/- ------------------------------------------------------------------ -/
/- C1: Profile construction validation                                -/
/- ------------------------------------------------------------------ -/

/-- C1 counterexample: a zero-norm polarization of length 2 does NOT
fail at construction — Profile.__init__ has no zero-norm check, so the
constructor returns an object (numpy's division by the zero norm warns
and yields non-finite components, it raises nothing). -/
theorem C1_counterexample : ∃ p, Profile.init 1 [0, 0] = .ok p :=
  ⟨_, rfl⟩

/-- C1 amended: constructing a Profile with a polarization sequence
whose length is not 2 fails with an AssertionError (InvalidArgument
class) synchronously at construction time; a length-2 polarization of
zero norm is not rejected and construction succeeds. -/
theorem C1_amended_length_check (wavelength : ℝ) (pol : List ℂ)
    (h : pol.length ≠ 2) :
    Profile.init wavelength pol = .error (.assertionError "len(pol) == 2") ∧
    ∃ p, Profile.init wavelength [0, 0] = .ok p := by
  refine ⟨?_, ⟨_, rfl⟩⟩
  unfold Profile.init
  rw [if_neg h]

/-- Witness for C1 at a length-1 polarization. -/
theorem C1_witness :
    Profile.init 1 [1] = .error (.assertionError "len(pol) == 2") ∧
    ∃ p, Profile.init 1 [0, 0] = .ok p :=
  C1_amended_length_check 1 [1] (by simp)

/- ------------------------------------------------------------------ -/
/- C7: scaling composes multiplicatively and is side-independent      -/
/- ------------------------------------------------------------------ -/

/-- C7: profile * k1 * k2 evaluates to profile.evaluate * k1 * k2 at
every point, and factor * profile builds the same ScaledProfile as
profile * factor. -/
theorem C7_scale_composes (p : Profile) (k1 k2 x y t : ℝ) :
    ∃ q r, Profile.mul p k1 = .ok q ∧ Profile.mul q k2 = .ok r ∧
      r.evaluate x y t = p.evaluate x y t * (k1 : ℂ) * (k2 : ℂ) ∧
      Profile.mul p k1 = Profile.rmul k1 p :=
  ⟨_, _, rfl, rfl, rfl, rfl⟩

/- ------------------------------------------------------------------ -/
/- C2: normalization against a zero field                             -/
/- ------------------------------------------------------------------ -/

/-- C2 counterexample: NormalizeEnergy with target 1 against an
identically-zero 1×1×1 field returns a non-error result (numpy float
division by the zero current energy yields inf with a warning; nothing
is raised), contradicting the claimed DivisionByZero-class failure. -/
theorem C2_counterexample :
    ∃ g1, normalize_energy "xyt" (some 1) zeroGrid = .ok g1 :=
  ⟨_, rfl⟩

/-- C2 amended: none of the three normalizations fails on an
identically-zero field: whenever the energy computation itself succeeds
and the field array is nonempty, each normalization with a non-null
target returns a non-error result (for a zero field the scale factor is
non-finite in IEEE arithmetic, but no DivisionByZero-class error is
ever raised). -/
theorem C2_amended_no_zero_error (dim : String) (g : Grid) (t e0 : ℝ)
    (hc : compute_laser_energy dim g = .ok e0)
    (hne : flat3 g.field ≠ []) :
    (∃ g1, normalize_energy dim (some t) g = .ok g1) ∧
    (∃ g2, normalize_peak_field_amplitude (some t) g = .ok g2) ∧
    (∃ g3, normalize_peak_intensity (some t) g = .ok g3) := by
  refine ⟨?_, ?_, ?_⟩
  · unfold normalize_energy
    rw [hc]
    exact ⟨_, rfl⟩
  · unfold normalize_peak_field_amplitude
    obtain ⟨m, hm⟩ := npMax_of_ne_nil
      (l := (flat3 g.field).map (fun v => Complex.abs v)) (by simpa using hne)
    rw [hm]
    exact ⟨_, rfl⟩
  · unfold normalize_peak_intensity
    obtain ⟨m, hm⟩ := npMax_of_ne_nil
      (l := (flat3 g.field).map (fun v =>
        Complex.abs ((epsilon_0 : ℂ) * v ^ 2 / 2 * (c : ℂ)))) (by simpa using hne)
    rw [hm]
    exact ⟨_, rfl⟩

/-- Witness for C2 on the concrete zero grid. -/
theorem C2_witness :
    (∃ g1, normalize_energy "xyt" (some 1) zeroGrid = .ok g1) ∧
    (∃ g2, normalize_peak_field_amplitude (some 1) zeroGrid = .ok g2) ∧
    (∃ g3, normalize_peak_intensity (some 1) zeroGrid = .ok g3) :=
  C2_amended_no_zero_error "xyt" zeroGrid 1
    (1 * 1 * (1 * c) * epsilon_0 * 0.5 * field2 [[[0]]]) rfl
    (by simp [zeroGrid, flat3])

/- ------------------------------------------------------------------ -/
/- Energy lemmas                                                      -/
/- ------------------------------------------------------------------ -/

theorem c_pos : (0 : ℝ) < c := by norm_num [c]

theorem epsilon_0_pos : (0 : ℝ) < epsilon_0 := by norm_num [epsilon_0]

theorem flatten_map_sum {α : Type} (g : α → ℝ) (s : List (List α)) :
    ((s.flatten).map g).sum = (s.map (fun l => (l.map g).sum)).sum := by
  induction s with
  | nil => rfl
  | cons l s ih => simp [ih, Function.comp_def]

theorem field2_flat (f : List (List (List ℂ))) :
    field2 f = ((flat3 f).map (fun v => Complex.abs v ^ 2)).sum := by
  unfold field2 slice2 row2 flat3
  rw [flatten_map_sum, List.map_map]
  have he : (fun s : List (List ℂ) =>
      (s.map (fun row => (row.map (fun v => Complex.abs v ^ 2)).sum)).sum) =
      ((fun l : List ℂ => (l.map (fun v => Complex.abs v ^ 2)).sum) ∘
        List.flatten) :=
    funext (fun s => (flatten_map_sum _ s).symm)
  rw [he]

theorem field2_uniform (n : ℕ) (v : ℂ) :
    field2 (uniformField n v) = (n : ℝ) ^ 3 * Complex.abs v ^ 2 := by
  unfold uniformField field2 slice2 row2
  simp [List.map_replicate, List.sum_replicate, nsmul_eq_mul]
  ring

theorem compute_xyt (d0 d1 d2 : ℝ) (ax : List ℝ) (f : List (List (List ℂ))) :
    compute_laser_energy "xyt" ⟨[d0, d1, d2], ax, f⟩ =
      .ok (d0 * d1 * (d2 * c) * epsilon_0 * 0.5 * field2 f) := rfl

theorem compute_rt (dr dt : ℝ) (ax : List ℝ) (f : List (List (List ℂ)))
    (h : ∀ s ∈ f, s.length = ax.length) :
    compute_laser_energy "rt" ⟨[dr, dt], ax, f⟩ =
      .ok (rtEnergy dr (dt * c) ax f) := by
  have hg : f.all (fun s => s.length == ax.length) = true := by
    rw [List.all_eq_true]
    intro s hs
    simpa using h s hs
  exact if_pos hg

theorem row2_nonneg (row : List ℂ) : 0 ≤ row2 row := by
  apply List.sum_nonneg
  intro x hx
  obtain ⟨v, _, rfl⟩ := List.mem_map.mp hx
  positivity

theorem row2_pos {row : List ℂ} {v : ℂ} (hv : v ∈ row) (hvne : v ≠ 0) :
    0 < row2 row := by
  have h1 : 0 < Complex.abs v ^ 2 := pow_pos (Complex.abs.pos hvne) 2
  have h2 : Complex.abs v ^ 2 ≤ row2 row := by
    apply List.single_le_sum
    · intro x hx
      obtain ⟨w, _, rfl⟩ := List.mem_map.mp hx
      positivity
    · exact List.mem_map_of_mem _ hv
  linarith

theorem slice2_nonneg (s : List (List ℂ)) : 0 ≤ slice2 s := by
  apply List.sum_nonneg
  intro x hx
  obtain ⟨row, _, rfl⟩ := List.mem_map.mp hx
  exact row2_nonneg row

theorem field2_nonneg (f : List (List (List ℂ))) : 0 ≤ field2 f := by
  apply List.sum_nonneg
  intro x hx
  obtain ⟨s, _, rfl⟩ := List.mem_map.mp hx
  exact slice2_nonneg s

theorem field2_pos {f : List (List (List ℂ))}
    (h : ∃ s ∈ f, ∃ row ∈ s, ∃ v ∈ row, v ≠ 0) : 0 < field2 f := by
  obtain ⟨s, hs, row, hrow, v, hv, hvne⟩ := h
  have h1 : 0 < row2 row := row2_pos hv hvne
  have h2 : row2 row ≤ slice2 s := by
    apply List.single_le_sum
    · intro x hx
      obtain ⟨r2, _, rfl⟩ := List.mem_map.mp hx
      exact row2_nonneg r2
    · exact List.mem_map_of_mem _ hrow
  have h3 : slice2 s ≤ field2 f := by
    apply List.single_le_sum
    · intro x hx
      obtain ⟨s2, _, rfl⟩ := List.mem_map.mp hx
      exact slice2_nonneg s2
    · exact List.mem_map_of_mem _ hs
  linarith

theorem abs_sq_mul_real (v : ℂ) (k : ℝ) :
    Complex.abs (v * (k : ℂ)) ^ 2 = k ^ 2 * Complex.abs v ^ 2 := by
  rw [map_mul, Complex.abs_ofReal, mul_pow, sq_abs]
  ring

theorem row2_scale (k : ℝ) (row : List ℂ) :
    row2 (row.map (fun v => v * (k : ℂ))) = k ^ 2 * row2 row := by
  unfold row2
  rw [List.map_map]
  exact sum_map_mul_of_ptwise _ _ _ _ (fun v _ => abs_sq_mul_real v k)

theorem slice2_scale (k : ℝ) (s : List (List ℂ)) :
    slice2 (s.map (fun row => row.map (fun v => v * (k : ℂ)))) =
      k ^ 2 * slice2 s := by
  unfold slice2
  rw [List.map_map]
  exact sum_map_mul_of_ptwise _ _ _ _ (fun row _ => row2_scale k row)

theorem field2_scale (k : ℝ) (f : List (List (List ℂ))) :
    field2 (scaleField k f) = k ^ 2 * field2 f := by
  unfold field2 scaleField
  rw [List.map_map]
  exact sum_map_mul_of_ptwise _ _ _ _ (fun s _ => slice2_scale k s)

theorem rtCellWeight_eq (dr dz r : ℝ) :
    rtCellWeight dr dz r = Real.pi * (2 * r * dr) * dz * epsilon_0 * 0.5 := by
  unfold rtCellWeight
  ring

theorem rtCellWeight_pos {dr dz r : ℝ} (hdr : 0 < dr) (hdz : 0 < dz)
    (hr : 0 < r) : 0 < rtCellWeight dr dz r := by
  rw [rtCellWeight_eq]
  have he := epsilon_0_pos
  have hpi := Real.pi_pos
  positivity

theorem rtPairSum_nonneg (dr dz : ℝ) (rs : List ℝ) (s : List (List ℂ))
    (hdr : 0 < dr) (hdz : 0 < dz) (hr : ∀ r ∈ rs, 0 < r) :
    0 ≤ ((rs.zip s).map
      (fun pr => rtCellWeight dr dz pr.1 * row2 pr.2)).sum := by
  apply List.sum_nonneg
  intro x hx
  obtain ⟨pr, hpr, rfl⟩ := List.mem_map.mp hx
  have h1 := hr pr.1 (List.of_mem_zip hpr).1
  exact mul_nonneg (rtCellWeight_pos hdr hdz h1).le (row2_nonneg pr.2)

theorem rtPairSum_pos (dr dz : ℝ) (rs : List ℝ) (s : List (List ℂ))
    (hdr : 0 < dr) (hdz : 0 < dz) (hr : ∀ r ∈ rs, 0 < r)
    (hlen : s.length = rs.length)
    (hnz : ∃ row ∈ s, ∃ v ∈ row, v ≠ 0) :
    0 < ((rs.zip s).map
      (fun pr => rtCellWeight dr dz pr.1 * row2 pr.2)).sum := by
  induction rs generalizing s with
  | nil =>
    cases s with
    | nil => simp at hnz
    | cons row s2 => simp at hlen
  | cons r rs ih =>
    cases s with
    | nil => simp at hnz
    | cons row s2 =>
      simp only [List.zip_cons_cons, List.map_cons, List.sum_cons]
      obtain ⟨row3, hrow3, v, hv, hvne⟩ := hnz
      have hw : 0 < rtCellWeight dr dz r :=
        rtCellWeight_pos hdr hdz (hr r (List.mem_cons_self r rs))
      have hrs : ∀ x ∈ rs, 0 < x := fun x hx => hr x (List.mem_cons_of_mem _ hx)
      rcases List.mem_cons.mp hrow3 with rfl | hrow3
      · have h1 : 0 < rtCellWeight dr dz r * row2 row3 :=
          mul_pos hw (row2_pos hv hvne)
        have h2 := rtPairSum_nonneg dr dz rs s2 hdr hdz hrs
        linarith
      · have h1 : 0 ≤ rtCellWeight dr dz r * row2 row :=
          mul_nonneg hw.le (row2_nonneg row)
        have h2 := ih s2 hrs (by simpa using hlen) ⟨row3, hrow3, v, hv, hvne⟩
        linarith

theorem rtEnergy_pos (dr dz : ℝ) (rs : List ℝ) (f : List (List (List ℂ)))
    (hdr : 0 < dr) (hdz : 0 < dz) (hr : ∀ r ∈ rs, 0 < r)
    (hshape : ∀ s ∈ f, s.length = rs.length)
    (hnz : ∃ s ∈ f, ∃ row ∈ s, ∃ v ∈ row, v ≠ 0) :
    0 < rtEnergy dr dz rs f := by
  obtain ⟨s, hs, hsrow⟩ := hnz
  unfold rtEnergy
  have h1 := rtPairSum_pos dr dz rs s hdr hdz hr (hshape s hs) hsrow
  have h2 : ((rs.zip s).map
      (fun pr => rtCellWeight dr dz pr.1 * row2 pr.2)).sum ≤
      (f.map (fun s2 => ((rs.zip s2).map
        (fun pr => rtCellWeight dr dz pr.1 * row2 pr.2)).sum)).sum := by
    apply List.single_le_sum
    · intro x hx
      obtain ⟨s2, _, rfl⟩ := List.mem_map.mp hx
      exact rtPairSum_nonneg dr dz rs s2 hdr hdz hr
    · exact List.mem_map_of_mem _ hs
  linarith

theorem rtEnergy_scale (dr dz k : ℝ) (rs : List ℝ)
    (f : List (List (List ℂ))) :
    rtEnergy dr dz rs (scaleField k f) = k ^ 2 * rtEnergy dr dz rs f := by
  unfold rtEnergy scaleField
  rw [List.map_map]
  apply sum_map_mul_of_ptwise
  intro s _
  rw [Function.comp_apply, List.zip_map_right, List.map_map]
  apply sum_map_mul_of_ptwise
  intro pr _
  obtain ⟨r, row⟩ := pr
  show rtCellWeight dr dz r * row2 (row.map (fun v => v * (k : ℂ))) =
    k ^ 2 * (rtCellWeight dr dz r * row2 row)
  rw [row2_scale]
  ring

/- ------------------------------------------------------------------ -/
/- C4: the "xyt" energy formula                                       -/
/- ------------------------------------------------------------------ -/

/-- C4: in "xyt" geometry the energy is the sum over all cells of
dx·dy·(dt·c)·(ε₀/2)·|E|²; for a uniform field of modulus |E| on an
(n,n,n) grid it equals n³·dx·dy·dt·c·(ε₀/2)·|E|², and for an all-zero
field it is 0. -/
theorem C4_xyt_energy_formula (n : ℕ) (dx dy dt : ℝ) (v : ℂ) (ax : List ℝ)
    (f : List (List (List ℂ))) :
    compute_laser_energy "xyt" ⟨[dx, dy, dt], ax, f⟩ =
      .ok (((flat3 f).map (fun w =>
        dx * dy * (dt * c) * (epsilon_0 / 2) * Complex.abs w ^ 2)).sum) ∧
    compute_laser_energy "xyt" ⟨[dx, dy, dt], ax, uniformField n v⟩ =
      .ok ((n : ℝ) ^ 3 * (dx * dy * dt * c) * (epsilon_0 / 2) *
        Complex.abs v ^ 2) ∧
    compute_laser_energy "xyt" ⟨[dx, dy, dt], ax, uniformField n 0⟩ =
      .ok 0 := by
  refine ⟨?_, ?_, ?_⟩
  · rw [compute_xyt]
    congr 1
    rw [sum_map_const_mul, ← field2_flat]
    ring
  · rw [compute_xyt, field2_uniform]
    congr 1
    ring
  · rw [compute_xyt, field2_uniform]
    simp

/- ------------------------------------------------------------------ -/
/- C3: NormalizeEnergy then ComputeEnergy returns the target          -/
/- ------------------------------------------------------------------ -/

/-- C3: on a well-formed grid (positive spacings; for "rt" positive
radii and mode slices matching the radial axis) whose field is not
identically zero, NormalizeEnergy(dim, E, grid) followed by
ComputeEnergy(dim, grid) returns exactly E, for dim in {"xyt", "rt"}
and any target energy E ≥ 0. -/
theorem C3_normalize_then_compute (dim : String) (g : Grid) (E : ℝ)
    (hE : 0 ≤ E)
    (hcase :
      (dim = "xyt" ∧
        ∃ d0 d1 d2, g.dx = [d0, d1, d2] ∧ 0 < d0 ∧ 0 < d1 ∧ 0 < d2) ∨
      (dim = "rt" ∧
        ∃ dr dt, g.dx = [dr, dt] ∧ 0 < dr ∧ 0 < dt ∧
          (∀ r ∈ g.axes0, 0 < r) ∧
          (∀ s ∈ g.field, s.length = g.axes0.length)))
    (hnz : ∃ s ∈ g.field, ∃ row ∈ s, ∃ v ∈ row, v ≠ 0) :
    ∃ g2, normalize_energy dim (some E) g = .ok g2 ∧
      compute_laser_energy dim g2 = .ok E := by
  obtain ⟨dxl, ax, f⟩ := g
  rcases hcase with ⟨rfl, d0, d1, d2, hdx, h0, h1, h2⟩ |
    ⟨rfl, dr, dt, hdx, hdr, hdt, hax, hshape⟩
  · simp only at hdx hnz
    subst hdx
    have hcur := compute_xyt d0 d1 d2 ax f
    have hKpos : 0 < d0 * d1 * (d2 * c) * epsilon_0 * 0.5 := by
      have hc := c_pos
      have he := epsilon_0_pos
      positivity
    have hfpos : 0 < field2 f := field2_pos hnz
    have hcurpos : 0 < d0 * d1 * (d2 * c) * epsilon_0 * 0.5 * field2 f :=
      mul_pos hKpos hfpos
    refine ⟨⟨[d0, d1, d2], ax,
      scaleField (Real.sqrt
        (E / (d0 * d1 * (d2 * c) * epsilon_0 * 0.5 * field2 f))) f⟩, ?_, ?_⟩
    · unfold normalize_energy
      rw [hcur]
    · rw [compute_xyt, field2_scale,
        Real.sq_sqrt (div_nonneg hE hcurpos.le)]
      congr 1
      field_simp
      ring
  · simp only at hdx hnz hax hshape
    subst hdx
    have hcur := compute_rt dr dt ax f hshape
    have hdz : 0 < dt * c := mul_pos hdt c_pos
    have hcurpos : 0 < rtEnergy dr (dt * c) ax f :=
      rtEnergy_pos dr (dt * c) ax f hdr hdz hax hshape hnz
    have hshape2 : ∀ s ∈ scaleField (Real.sqrt
        (E / rtEnergy dr (dt * c) ax f)) f, s.length = ax.length := by
      intro s hs
      obtain ⟨s0, hs0, rfl⟩ := List.mem_map.mp hs
      rw [List.length_map]
      exact hshape s0 hs0
    refine ⟨⟨[dr, dt], ax,
      scaleField (Real.sqrt (E / rtEnergy dr (dt * c) ax f)) f⟩, ?_, ?_⟩
    · unfold normalize_energy
      rw [hcur]
    · rw [compute_rt dr dt ax _ hshape2, rtEnergy_scale,
        Real.sq_sqrt (div_nonneg hE hcurpos.le)]
      congr 1
      field_simp

/-- Witness for C3 on a concrete 1×1×1 "xyt" grid with unit field and
target energy 4. -/
theorem C3_witness :
    ∃ g2, normalize_energy "xyt" (some 4) ⟨[1, 1, 1], [], [[[1]]]⟩ = .ok g2 ∧
      compute_laser_energy "xyt" g2 = .ok 4 :=
  C3_normalize_then_compute "xyt" ⟨[1, 1, 1], [], [[[1]]]⟩ 4 (by norm_num)
    (Or.inl ⟨rfl, 1, 1, 1, rfl, by norm_num, by norm_num, by norm_num⟩)
    ⟨[[1]], by simp, [1], by simp, 1, by simp, one_ne_zero⟩

/- ------------------------------------------------------------------ -/
/- C8: SummedProfile construction validation                          -/
/- ------------------------------------------------------------------ -/

/-- C8: SummedProfile construction requires at least one operand
(the empty call fails, with the IndexError from `self.lambda0[0]`),
fails with an AssertionError (InvalidArgument class) when an operand is
not a Profile, when wavelengths differ beyond the np.allclose tolerance
or when polarizations do, and on success adopts the first operand's
wavelength and polarization as the composite's own. -/
theorem C8_summed_validation (args : List PyVal) (p0 : Profile)
    (ps : List Profile) :
    SummedProfile.init [] = .error Err.indexError ∧
    (PyVal.other ∈ args →
      SummedProfile.init args =
        .error (.assertionError "All summands must be Profile objects.")) ∧
    (args = (p0 :: ps).map PyVal.prof →
      (¬ wavelengthsClose (p0 :: ps) p0.lambda0 →
        SummedProfile.init args =
          .error (.assertionError "Added profiles must have the same wavelength.")) ∧
      (wavelengthsClose (p0 :: ps) p0.lambda0 →
        ¬ polsClose (p0 :: ps) p0.pol →
        SummedProfile.init args =
          .error (.assertionError "Added profiles must have the same polarization.")) ∧
      (wavelengthsClose (p0 :: ps) p0.lambda0 →
        polsClose (p0 :: ps) p0.pol →
        SummedProfile.init args = .ok (.summed p0.lambda0 p0.pol (p0 :: ps)) ∧
        (Profile.summed p0.lambda0 p0.pol (p0 :: ps)).lambda0 = p0.lambda0 ∧
        (Profile.summed p0.lambda0 p0.pol (p0 :: ps)).pol = p0.pol)) := by
  refine ⟨rfl, ?_, ?_⟩
  · intro hmem
    unfold SummedProfile.init
    rw [if_neg ?_]
    intro hall
    simpa [PyVal.isProfile] using List.all_eq_true.mp hall PyVal.other hmem
  · intro hargs
    subst hargs
    refine ⟨?_, ?_, ?_⟩
    · intro hnw
      unfold SummedProfile.init
      rw [if_pos (map_prof_all (p0 :: ps)), filterMap_map_prof]
      exact if_neg hnw
    · intro hw hnp
      unfold SummedProfile.init
      rw [if_pos (map_prof_all (p0 :: ps)), filterMap_map_prof]
      exact (if_pos hw).trans (if_neg hnp)
    · intro hw hp
      exact ⟨summed_init_ok p0 ps hw hp, rfl, rfl⟩

/-- Witness for C8: the empty call, a non-Profile operand, and a
successful one-operand construction adopting pA's attributes. -/
theorem C8_witness :
    SummedProfile.init [] = .error Err.indexError ∧
    SummedProfile.init [PyVal.other] =
      .error (.assertionError "All summands must be Profile objects.") ∧
    SummedProfile.init [PyVal.prof pA] =
      .ok (.summed pA.lambda0 pA.pol [pA]) ∧
    (Profile.summed pA.lambda0 pA.pol [pA]).lambda0 = pA.lambda0 ∧
    (Profile.summed pA.lambda0 pA.pol [pA]).pol = pA.pol := by
  refine ⟨(C8_summed_validation [] pA []).1,
    (C8_summed_validation [PyVal.other] pA []).2.1 (by simp), ?_⟩
  exact ((C8_summed_validation [PyVal.prof pA] pA []).2.2 rfl).2.2
    (wavelengthsClose_single pA) (polsClose_single pA)

/- ------------------------------------------------------------------ -/
/- C6: summed evaluation is the operand sum, commutative, associative -/
/- ------------------------------------------------------------------ -/

/-- C6: a constructed SummedProfile evaluates to the elementwise
complex sum of its operands' evaluations, and the result is independent
of operand order and grouping: (A+B) evaluates like (B+A), and
((A+B)+C) like (A+(B+C)), at every coordinate point. -/
theorem C6_summed_evaluate (args : List PyVal) (S A B C P Q T R U : Profile)
    (x y t : ℝ)
    (hS : SummedProfile.init args = .ok S)
    (hP : Profile.add A B = .ok P) (hQ : Profile.add B A = .ok Q)
    (hT : Profile.add P C = .ok T)
    (hR : Profile.add B C = .ok R) (hU : Profile.add A R = .ok U) :
    (∃ ops : List Profile, args = ops.map PyVal.prof ∧
      S.evaluate x y t = (ops.map (fun p => p.evaluate x y t)).sum) ∧
    P.evaluate x y t = Q.evaluate x y t ∧
    T.evaluate x y t = U.evaluate x y t := by
  obtain ⟨s0, ss, hargsS, hSeq⟩ := summed_init_ok_inv hS
  obtain ⟨a0, as, hargsP, hPeq⟩ := summed_init_ok_inv hP
  obtain ⟨b0, bs, hargsQ, hQeq⟩ := summed_init_ok_inv hQ
  obtain ⟨t0, ts, hargsT, hTeq⟩ := summed_init_ok_inv hT
  obtain ⟨r0, rs, hargsR, hReq⟩ := summed_init_ok_inv hR
  obtain ⟨u0, us, hargsU, hUeq⟩ := summed_init_ok_inv hU
  obtain ⟨rfl, rfl⟩ := pair_map_prof_inv hargsP
  obtain ⟨rfl, rfl⟩ := pair_map_prof_inv hargsQ
  obtain ⟨rfl, rfl⟩ := pair_map_prof_inv hargsT
  obtain ⟨rfl, rfl⟩ := pair_map_prof_inv hargsR
  obtain ⟨rfl, rfl⟩ := pair_map_prof_inv hargsU
  subst hSeq hPeq hQeq hTeq hReq hUeq
  refine ⟨⟨s0 :: ss, hargsS, evaluate_summed _ _ _ x y t⟩, ?_, ?_⟩
  · simp only [evaluate_summed, List.map_cons, List.map_nil, List.sum_cons,
      List.sum_nil]
    ring
  · simp only [evaluate_summed, List.map_cons, List.map_nil, List.sum_cons,
      List.sum_nil]
    ring

/-- Witness for C6 on concrete profiles pA, pB, pC at the origin. -/
theorem C6_witness :
    (∃ ops : List Profile, ([PyVal.prof pA] : List PyVal) = ops.map PyVal.prof ∧
      pAonly.evaluate 0 0 0 = (ops.map (fun p => p.evaluate 0 0 0)).sum) ∧
    pAB.evaluate 0 0 0 = pBA.evaluate 0 0 0 ∧
    pABC.evaluate 0 0 0 = pA_BC.evaluate 0 0 0 :=
  C6_summed_evaluate [PyVal.prof pA] pAonly pA pB pC pAB pBA pABC pBC pA_BC 0 0 0
    (summed_init_ok pA [] (wavelengthsClose_single pA) (polsClose_single pA))
    (add_ok_same pA pB rfl rfl) (add_ok_same pB pA rfl rfl)
    (add_ok_same pAB pC rfl rfl) (add_ok_same pB pC rfl rfl)
    (add_ok_same pA pBC rfl rfl)

/- ------------------------------------------------------------------ -/
/- C5: unit polarization invariant                                    -/
/- ------------------------------------------------------------------ -/

/-- C5: a Profile built from a valid polarization pair (length 2,
nonzero norm) stores a unit-norm polarization, and SummedProfile and
ScaledProfile carry over the polarization of their first/wrapped
constituent unchanged. -/
theorem C5_unit_polarization (wavelength : ℝ) (a b : ℂ)
    (hab : ¬(a = 0 ∧ b = 0))
    (args : List PyVal) (q : Profile)
    (hq : SummedProfile.init args = .ok q)
    (s : Profile) (k : ℝ) :
    (∃ p, Profile.init wavelength [a, b] = .ok p ∧
      Complex.abs p.pol.1 ^ 2 + Complex.abs p.pol.2 ^ 2 = 1) ∧
    (∃ p0 ps, args = (p0 :: ps).map PyVal.prof ∧ q.pol = p0.pol) ∧
    (∃ r, ScaledProfile.init s k = .ok r ∧ r.pol = s.pol) := by
  refine ⟨?_, ?_, ⟨_, rfl, rfl⟩⟩
  · refine ⟨_, rfl, ?_⟩
    have hS : 0 < Complex.abs a ^ 2 + Complex.abs b ^ 2 := by
      rcases not_and_or.mp hab with h | h
      · exact add_pos_of_pos_of_nonneg (pow_pos (Complex.abs.pos h) 2)
          (by positivity)
      · exact add_pos_of_nonneg_of_pos (by positivity)
          (pow_pos (Complex.abs.pos h) 2)
    have hnpos : 0 < Real.sqrt (Complex.abs a ^ 2 + Complex.abs b ^ 2) :=
      Real.sqrt_pos.mpr hS
    show Complex.abs
        (a / ((Real.sqrt (Complex.abs a ^ 2 + Complex.abs b ^ 2) : ℝ) : ℂ)) ^ 2 +
      Complex.abs
        (b / ((Real.sqrt (Complex.abs a ^ 2 + Complex.abs b ^ 2) : ℝ) : ℂ)) ^ 2 = 1
    rw [map_div₀, map_div₀, Complex.abs_ofReal, abs_of_pos hnpos, div_pow,
      div_pow, div_add_div_same, Real.sq_sqrt hS.le, div_self (ne_of_gt hS)]
  · obtain ⟨p0, ps, h1, h2⟩ := summed_init_ok_inv hq
    exact ⟨p0, ps, h1, by rw [h2]; rfl⟩

/-- Witness for C5 with pol = (1, 0), a single-operand sum, and a
scaled pA. -/
theorem C5_witness :
    (∃ p, Profile.init 1 [1, 0] = .ok p ∧
      Complex.abs p.pol.1 ^ 2 + Complex.abs p.pol.2 ^ 2 = 1) ∧
    (∃ p0 ps, ([PyVal.prof pA] : List PyVal) = (p0 :: ps).map PyVal.prof ∧
      pAonly.pol = p0.pol) ∧
    (∃ r, ScaledProfile.init pA 2 = .ok r ∧ r.pol = pA.pol) :=
  C5_unit_polarization 1 1 0 (by simp) [PyVal.prof pA] pAonly
    (summed_init_ok pA [] (wavelengthsClose_single pA) (polsClose_single pA))
    pA 2

end Lasy
